import Mathlib

/-!
Shallow embedding of the libpmp cost-estimation core: the distribution
abstraction of src/distributions/distribution.py and the cost-aggregation
tree of src/model/node.py.  Python floats are embedded as exact rationals;
the distribution variants and operations defined in files that are not part
of the sources at hand (point_distribution.py, log_logistic.py,
operations.py) are modelled from the specification and marked as such.
-/

namespace Libpmp

/-- The distribution value space.  `zero` embeds the `_ZeroDistribution`
singleton of src/distributions/distribution.py.  Modelled from the spec:
`point` is the PointDistribution (a finite map value → weight, embedded as an
association list); `fitted` is the log-logistic curve produced by
`LogLogistic.fit p1 x1 p2 x2`, represented by the two quantile/value pairs
that pin it down (the closed-form α, β are a bijection of these under the
fit preconditions); `conv` stands for the numerically-convolved sum of two
distributions for which no closed form exists. -/
inductive Dist where
  | zero
  | point (pairs : List (ℚ × ℚ))
  | fitted (p1 x1 p2 x2 : ℚ)
  | conv (a b : Dist)
deriving DecidableEq, Repr

/-- Modelled from the spec: `scale(dist, factor)` returns the distribution of
factor×X.  Scaling a Point multiplies every value key; scaling the fitted
curve scales both defining values (the log-logistic family is scale
invariant); scaling Zero gives Zero; scaling a symbolic sum scales both
summands. -/
def dist_scale : Dist → ℚ → Dist
  | .zero, _ => .zero
  | .point pairs, m => .point (pairs.map (fun vw => (m * vw.1, vw.2)))
  | .fitted p1 x1 p2 x2, m => .fitted p1 (m * x1) p2 (m * x2)
  | .conv a b, m => .conv (dist_scale a m) (dist_scale b m)

/-- Add weight `w` at value `v` to a point-mass list, collapsing duplicates. -/
def addWeight (v w : ℚ) : List (ℚ × ℚ) → List (ℚ × ℚ)
  | [] => [(v, w)]
  | vw :: rest =>
    if v = vw.1 then (vw.1, vw.2 + w) :: rest else vw :: addWeight v w rest

/-- Modelled from the spec: the sum of two Point distributions is the Point
distribution over the cross product of value pairs, with weights multiplied
and duplicate sums collapsed by adding their weights. -/
def pointSum (a b : List (ℚ × ℚ)) : List (ℚ × ℚ) :=
  a.foldl
    (fun acc vw =>
      b.foldl (fun acc2 uw => addWeight (vw.1 + uw.1) (vw.2 * uw.2) acc2) acc)
    []

/-- Modelled from the spec: `add(distA, distB)` is the distribution of the
sum of two independent variables.  Zero is the additive identity; two Point
distributions have the closed form `pointSum`; every other combination is
produced by numerical convolution, represented symbolically by `conv`. -/
def dist_add : Dist → Dist → Dist
  | .zero, d => d
  | d, .zero => d
  | .point a, .point b => .point (pointSum a b)
  | a, b => .conv a b

/-- Insert a (value, weight) pair into a list sorted by value. -/
def insertPair (x : ℚ × ℚ) : List (ℚ × ℚ) → List (ℚ × ℚ)
  | [] => [x]
  | y :: ys => if x.1 ≤ y.1 then x :: y :: ys else y :: insertPair x ys

/-- Sort a (value, weight) list by value (insertion sort). -/
def sortPairs : List (ℚ × ℚ) → List (ℚ × ℚ)
  | [] => []
  | x :: xs => insertPair x (sortPairs xs)

/-- Scan a sorted (value, weight) list for the smallest value whose
cumulative weight reaches `p`. -/
def pointQuantileGo (p : ℚ) : List (ℚ × ℚ) → ℚ → Option ℚ
  | [], _ => none
  | vw :: rest, acc =>
    if p ≤ acc + vw.2 then some vw.1 else pointQuantileGo p rest (acc + vw.2)

/-- Modelled from the spec: the Point quantile is the smallest value v such
that the cumulative weight up to and including v is ≥ p. -/
def pointQuantile (pairs : List (ℚ × ℚ)) (p : ℚ) : Option ℚ :=
  pointQuantileGo p (sortPairs pairs) 0

/-- Exact quantile values of the embedded distributions: the Zero
distribution answers 0 for every p (src/distributions/distribution.py,
`_ZeroDistribution.quantile`); the Point quantile is modelled from the spec.
The fitted curve and symbolic convolutions have no exact rational quantile,
so no exact value is offered for them. -/
def quantile : Dist → ℚ → Option ℚ
  | .zero, _ => some 0
  | .point pairs, p => pointQuantile pairs p
  | .fitted _ _ _ _, _ => none
  | .conv _ _, _ => none

/-! ### The `_ZeroDistribution` methods, from src/distributions/distribution.py -/

/-- `_ZeroDistribution.cdf`: returns 1 for every argument. -/
def zero_cdf (_x : ℚ) : ℚ := 1

/-- `_ZeroDistribution.pdf`: returns 0 for every argument. -/
def zero_pdf (_x : ℚ) : ℚ := 0

/-- `_ZeroDistribution.point_on_curve`: returns 0. -/
def zero_point_on_curve : ℚ := 0

/-- `_ZeroDistribution.quantile`: returns 0 for every argument. -/
def zero_quantile (_p : ℚ) : ℚ := 0

/-- `_ZeroDistribution.contains_point_masses`: returns True. -/
def zero_contains_point_masses : Bool := true

/-! ### The abstract `Distribution` base-class methods

Python calls either return a value normally or raise an exception; the two
outcomes are embedded explicitly so that the difference is visible. -/

/-- A Python value as far as the base-class methods are concerned: a number,
or an exception instance used as an ordinary value. -/
inductive PyVal where
  | num (q : ℚ)
  | excInstance (excType : String) (msg : String)
deriving DecidableEq, Repr

/-- The outcome of a Python call: a normal return, or a raised exception. -/
inductive PyCallResult where
  | normalReturn (v : PyVal)
  | raised (excType : String) (msg : String)
deriving DecidableEq, Repr

/-- `Distribution.cdf` without a concrete override
(src/distributions/distribution.py line 34): the method body is
`return NotImplementedError(...)`, so the call returns the exception
instance as an ordinary value instead of raising it. -/
def distribution_cdf (_x : ℚ) : PyCallResult :=
  .normalReturn (.excInstance "NotImplementedError"
    "Distribution classes must define cdf.")

/-- `Distribution.pdf` without a concrete override (line 44): likewise
returns the exception instance instead of raising it. -/
def distribution_pdf (_x : ℚ) : PyCallResult :=
  .normalReturn (.excInstance "NotImplementedError"
    "Distribution classes must define pdf.")

/-- `Distribution.point_on_curve` without a concrete override (lines 49-50):
likewise returns the exception instance instead of raising it.  The message
is the Python concatenation, without a trailing period. -/
def distribution_point_on_curve : PyCallResult :=
  .normalReturn (.excInstance "NotImplementedError"
    "Distribution classes must define point_on_curve")

/-! ### The default `Distribution.quantile` (src/distributions/distribution.py
lines 52-70) and the scipy bisection it calls -/

/-- One step of the bracket-doubling loop:
`end = 2 * end if end != 0 else 1`. -/
def bracketStep (e : ℚ) : ℚ := if e = 0 then 1 else 2 * e

/-- `k` iterations of `bracketStep`. -/
def bracketIter : ℕ → ℚ → ℚ
  | 0, e => e
  | k + 1, e => bracketIter k (bracketStep e)

/-- The loop `while self.cdf(end) <= p: end = 2 * end if end != 0 else 1`,
with explicit fuel: `none` means the loop has not yet exited within `fuel`
iterations, `some e` is the first endpoint with cdf(e) > p. -/
def bracketEnd (f : ℚ → ℚ) (p : ℚ) : ℕ → ℚ → Option ℚ
  | 0, _ => none
  | fuel + 1, e => if f e ≤ p then bracketEnd f p fuel (bracketStep e) else some e

/-- Bisection iterations on a bracketing interval. -/
def bisectGo (f : ℚ → ℚ) : ℚ → ℚ → ℕ → ℚ
  | a, b, 0 => (a + b) / 2
  | a, b, n + 1 =>
    let m := (a + b) / 2
    if f m = 0 then m
    else if f a * f m < 0 then bisectGo f a m n
    else bisectGo f m b n

/-- Modelled from the documented contract of `scipy.optimize.bisect` (an
external dependency, not repository code): it raises a ValueError when
f(a) and f(b) have the same nonzero sign, and otherwise returns a root
approximation found by bisection.  The fixed iteration count stands in for
the xtol-based stopping rule; the exact returned value is not relied on. -/
def bisect (f : ℚ → ℚ) (a b : ℚ) : Except String ℚ :=
  if 0 < f a * f b then .error "f a and f b must have different signs"
  else if f a = 0 then .ok a
  else if f b = 0 then .ok b
  else .ok (bisectGo f a b 100)

/-- The default `Distribution.quantile` on a distribution whose cdf is `f`:
run the bracket-doubling loop, then bisect `cdf(x) - p` over [0, end].
`none` means the loop has not exited within `fuel` iterations. -/
def quantile_default (f : ℚ → ℚ) (p : ℚ) (fuel : ℕ) :
    Option (Except String ℚ) :=
  (bracketEnd f p fuel 0).map (fun e => bisect (fun x => f x - p) 0 e)

/-- A monotonically non-decreasing cdf. -/
def MonotoneCdf (f : ℚ → ℚ) : Prop := ∀ x y : ℚ, x ≤ y → f x ≤ f y

/-- A cdf that approaches 1 as its argument grows. -/
def TendsToOne (f : ℚ → ℚ) : Prop :=
  ∀ ε : ℚ, 0 < ε → ∃ N : ℕ, ∀ x : ℚ, (N : ℚ) ≤ x → 1 - f x < ε

/-! ### The cost tree, from src/model/node.py -/

/-- `CostConfig`, from src/model/node.py lines 25-29.  The Python
`resource_costs` dict is embedded as an association list in which the first
binding for a key wins. -/
structure CostConfig where
  unit_name : String
  resource_costs : List (String × ℚ)
deriving DecidableEq, Repr

/-- First-match association-list lookup, embedding Python dict access. -/
def assocLookup {α β : Type} [DecidableEq α] (k : α) : List (α × β) → Option β
  | [] => none
  | kv :: rest => if k = kv.1 then some kv.2 else assocLookup k rest

/-- A `Node` of the estimates tree (src/model/node.py).  The fields that
participate in cost computation are kept: `tag`, `resource` (default `""`),
`distribution`, the `_memoized_cost` cache and the ordered `children`.  The
fields `c_class`, `data`, `parser_diag` never influence costs and are
omitted; the `parent` back-reference is implicit in the tree structure, so
the `check_valid` parent-linkage assertion holds by construction here. -/
inductive Node where
  | mk (tag : String) (resource : String) (distribution : Option Dist)
      (memoized_cost : List (Option CostConfig × Dist)) (children : List Node)

/-- Instrumentation: how many `dist_scale` and `dist_add` calls a cost
computation performs. -/
structure CostStats where
  scale_calls : ℕ
  add_calls : ℕ
deriving DecidableEq, Repr

/-- Pointwise sum of two instrumentation counters. -/
def statAdd (a b : CostStats) : CostStats :=
  ⟨a.scale_calls + b.scale_calls, a.add_calls + b.add_calls⟩

/-- The node-local part of `Node._cost_raw` (src/model/node.py lines
112-118): with no config, `cost_so_far` is the node distribution unchanged;
with a config, the multiplier is `config.resource_costs.get(self.resource, 0)`
and `cost_so_far` becomes the scaled distribution when the multiplier is
positive, else `None`.  The Python code calls `dist_scale` on `cost_so_far`
even when it is `None`; `dist_scale` lives in operations.py, which is not
among the sources at hand, and is modelled from the spec as preserving
absence. -/
def ownContribution (r : String) (d : Option Dist) (cfg : Option CostConfig) :
    Option Dist :=
  match cfg with
  | none => d
  | some c =>
    let m := (assocLookup r c.resource_costs).getD 0
    if 0 < m then d.map (fun dd => dist_scale dd m) else none

/-- The `dist_scale` calls performed by the node-local part of
`Node._cost_raw`: exactly one when a config is present and the multiplier is
positive. -/
def ownStats (r : String) (cfg : Option CostConfig) : CostStats :=
  match cfg with
  | none => ⟨0, 0⟩
  | some c => if 0 < (assocLookup r c.resource_costs).getD 0 then ⟨1, 0⟩ else ⟨0, 0⟩

mutual

/-- `Node._cost_raw(config, final=False)` (src/model/node.py lines 104-129),
instrumented with call counts.  The `child_cost is None` test of line 121
can never succeed, because `_cost_raw` always returns `cost_so_far or ZERO`
(line 126), which is a distribution; the embedding therefore types child
results as distributions, and Python `or`-coalescing on `cost_so_far`
(distribution instances are always truthy) becomes an `Option` match. -/
def cost_raw (n : Node) (cfg : Option CostConfig) : Dist × CostStats :=
  match n with
  | .mk _ r d _ cs =>
    let f := cost_fold cs cfg (ownContribution r d cfg) (ownStats r cfg)
    (f.1.getD .zero, f.2)

/-- The child loop of `Node._cost_raw` (lines 119-124): accumulate each
child cost into `cost_so_far`, taking the child cost outright when the
accumulator is absent and `dist_add`-combining otherwise. -/
def cost_fold (cs : List Node) (cfg : Option CostConfig) (acc : Option Dist)
    (st : CostStats) : Option Dist × CostStats :=
  match cs with
  | [] => (acc, st)
  | c :: rest =>
    let rc := cost_raw c cfg
    match acc with
    | none => cost_fold rest cfg (some rc.1) (statAdd st rc.2)
    | some a =>
      cost_fold rest cfg (some (dist_add a rc.1)) (statAdd (statAdd st rc.2) ⟨0, 1⟩)

end

/-- `Node.cost(config)` (src/model/node.py lines 99-102): `check_valid`
(which holds by construction in the tree embedding) followed by
`_cost_raw(config, final=False)`. -/
def cost (n : Node) (cfg : Option CostConfig) : Dist := (cost_raw n cfg).1

/-- The `dist_add`/`dist_scale` call counts of `Node.cost(config)`. -/
def costStats (n : Node) (cfg : Option CostConfig) : CostStats := (cost_raw n cfg).2

mutual

/-- `Node._cost_raw(config, final=True)` (src/model/node.py lines 104-129),
instrumented: returns the cost, the tree with memo caches updated, and the
`dist_scale`/`dist_add` call counts.  A memo hit (lines 108-110) returns the
cached value with no further work; otherwise the result is computed as in
the non-final mode and stored in the node memo (lines 127-128). -/
def cost_raw_final (n : Node) (cfg : Option CostConfig) :
    Dist × Node × CostStats :=
  match n with
  | .mk t r d memo cs =>
    match assocLookup cfg memo with
    | some m => (m, .mk t r d memo cs, ⟨0, 0⟩)
    | none =>
      let f := cost_fold_final cs cfg (ownContribution r d cfg) (ownStats r cfg)
      let result := f.1.getD .zero
      (result, .mk t r d ((cfg, result) :: memo) f.2.1, f.2.2)

/-- The child loop of the memoizing mode: like `cost_fold`, threading the
memo-updated children through. -/
def cost_fold_final (cs : List Node) (cfg : Option CostConfig)
    (acc : Option Dist) (st : CostStats) :
    Option Dist × List Node × CostStats :=
  match cs with
  | [] => (acc, [], st)
  | c :: rest =>
    let rc := cost_raw_final c cfg
    let next :=
      match acc with
      | none => cost_fold_final rest cfg (some rc.1) (statAdd st rc.2.2)
      | some a =>
        cost_fold_final rest cfg (some (dist_add a rc.1))
          (statAdd (statAdd st rc.2.2) ⟨0, 1⟩)
    (next.1, rc.2.1 :: next.2.1, next.2.2)

end

/-- `Node.final_cost(config)` (src/model/node.py lines 93-97): `check_valid`
(which holds by construction here) followed by `_cost_raw(config, final=True)`. -/
def final_cost (n : Node) (cfg : Option CostConfig) : Dist × Node × CostStats :=
  cost_raw_final n cfg

mutual

/-- A subtree has no applicable cost under a config when its own
contribution computes to `None` and, recursively, no child has one: this is
exactly the condition under which the accumulator of `_cost_raw` stays
`None` through line 126. -/
def noApplicableCost (cfg : Option CostConfig) : Node → Bool
  | .mk _ r d _ cs =>
    (ownContribution r d cfg).isNone && noApplicableCostList cfg cs

/-- List form of `noApplicableCost`. -/
def noApplicableCostList (cfg : Option CostConfig) : List Node → Bool
  | [] => true
  | c :: cs => noApplicableCost cfg c && noApplicableCostList cfg cs

end

/-- A resource is excluded by a config when it is unlisted in
`resource_costs` or mapped to a multiplier ≤ 0. -/
def excludedBy (cfg : CostConfig) (r : String) : Bool :=
  match assocLookup r cfg.resource_costs with
  | none => true
  | some m => m ≤ 0

mutual

/-- Every resource occurring in the tree is excluded by the config. -/
def allExcluded (cfg : CostConfig) : Node → Bool
  | .mk _ r _ _ cs => excludedBy cfg r && allExcludedList cfg cs

/-- List form of `allExcluded`. -/
def allExcludedList (cfg : CostConfig) : List Node → Bool
  | [] => true
  | c :: cs => allExcluded cfg c && allExcludedList cfg cs

end

/-! ### `make_distribution`, from src/model/node.py lines 151-165 -/

/-- Digit-string value, most significant first. -/
def natOfDigits (cs : List Char) : ℕ :=
  cs.foldl (fun a c => 10 * a + (c.toNat - 48)) 0

/-- Modelled from the behavior of Python `float()` on decimal literals: an
optional sign, then digits with an optional single decimal dot (at least one
digit overall); anything else raises ValueError, embedded as `none`.
Exponents, infinities, underscores and surrounding whitespace are not
modelled; values are exact rationals, not IEEE floats. -/
def pyFloat (s : String) : Option ℚ :=
  let sgncs : Bool × List Char :=
    match s.toList with
    | '-' :: rest => (true, rest)
    | '+' :: rest => (false, rest)
    | cs => (false, cs)
  let intPart := sgncs.2.takeWhile (fun c => c != '.')
  match sgncs.2.dropWhile (fun c => c != '.') with
  | [] =>
    if intPart ≠ [] ∧ intPart.all Char.isDigit then
      some (if sgncs.1 then -(natOfDigits intPart : ℚ) else natOfDigits intPart)
    else none
  | _ :: frac =>
    if (intPart ≠ [] ∨ frac ≠ []) ∧ intPart.all Char.isDigit ∧
        frac.all Char.isDigit then
      let v : ℚ := (natOfDigits intPart : ℚ) +
        (natOfDigits frac : ℚ) / 10 ^ frac.length
      some (if sgncs.1 then -v else v)
    else none

/-- Split a character list at every occurrence of `sep`, embedding Python
`str.split` (which yields `['']` on the empty string and keeps empty
segments between adjacent separators). -/
def splitOnChar (sep : Char) : List Char → List (List Char)
  | [] => [[]]
  | c :: rest =>
    let r := splitOnChar sep rest
    if c = sep then [] :: r
    else
      match r with
      | [] => [[c]]
      | g :: gs => (c :: g) :: gs

/-- The estimate-string body split of `make_distribution` line 160,
`data[1:-1].split('-')`: drop the first and last character, then split on
`-`, working on the character list. -/
def bodySplit (data : String) : List String :=
  (splitOnChar '-' (data.toList.drop 1).dropLast).map String.mk

/-- Modelled from the spec: `LogLogistic.fit(p1, x1, p2, x2)` (the file
log_logistic.py is not among the sources at hand) solves the two CDF
equations in closed form and fails if x1 = x2 or either probability is
outside (0,1) or x1, x2 ≤ 0.  The successful result is the fitted curve,
represented by its defining quantile/value pairs. -/
def logLogisticFit (p1 x1 p2 x2 : ℚ) : Except String Dist :=
  if x1 = x2 ∨ x1 ≤ 0 ∨ x2 ≤ 0 ∨ p1 ≤ 0 ∨ 1 ≤ p1 ∨ p2 ≤ 0 ∨ 1 ≤ p2 then
    .error "fit error"
  else .ok (.fitted p1 x1 p2 x2)

/-- `fit_curve` (src/model/node.py lines 151-154): a log-logistic curve fit
to the provided 10% and 75% quantile values. -/
def fit_curve (value_10 value_75 : ℚ) : Except String Dist :=
  logLogisticFit (1/10) value_10 (3/4) value_75

/-- `make_distribution` (src/model/node.py lines 157-165): split the body of
the estimate expression on `-`; one segment yields a point distribution of
weight 1.0 at the parsed value, otherwise the first two segments feed
`fit_curve`.  A failing `float()` conversion is a ValueError, embedded as
`.error`. -/
def make_distribution (data : String) : Except String Dist :=
  match bodySplit data with
  | [v] =>
    match pyFloat v with
    | some x => .ok (.point [(x, 1)])
    | none => .error "could not convert string to float"
  | v0 :: v1 :: _ =>
    match pyFloat v0, pyFloat v1 with
    | some a, some b => fit_curve a b
    | _, _ => .error "could not convert string to float"
  | [] => .error "unreachable: split never returns an empty list"

/-! ### Concrete trees and configs used by the spec acceptance examples -/

/-- The child of the 2-node resource-exclusion example: tagged resource
`"hours"` with own cost Point({1: 1.0}). -/
def hoursChild : Node := .mk "child" "hours" (some (.point [(1, 1)])) [] []

/-- The root of the 2-node resource-exclusion example: tagged resource
`"dollars"` with own cost Point({5: 1.0}) and `hoursChild` as only child. -/
def dollarsRoot : Node :=
  .mk "root" "dollars" (some (.point [(5, 1)])) [] [hoursChild]

/-- The config mapping only `"dollars"` to 1. -/
def dollarsOnly : CostConfig := ⟨"dollars", [("dollars", 1)]⟩

/-- A node owning a distribution but carrying no resource label
(Python default `self.resource = ""`). -/
def unlabeledNode : Node := .mk "n" "" (some (.point [(5, 1)])) [] []

/-- The two-valued step cdf of a unit point mass at 1, used to instantiate
the quantile-fallback theorems. -/
def stepCdf (x : ℚ) : ℚ := if x < 1 then 0 else 1

/-! ### Helper lemmas -/

/-- Structural strong induction for `Node`: a property holds of every node
once it holds of any node given it for all its children. -/
theorem node_ind (P : Node → Prop)
    (h : ∀ t r d m cs, (∀ c ∈ cs, P c) → P (Node.mk t r d m cs)) :
    ∀ n, P n := by
  have key : ∀ k : ℕ, ∀ n : Node, sizeOf n ≤ k → P n := by
    intro k
    induction k with
    | zero =>
      intro n hn
      cases n with
      | mk t r d m cs => simp at hn
    | succ k ih =>
      intro n hn
      cases n with
      | mk t r d m cs =>
        apply h
        intro c hc
        apply ih
        have h1 : sizeOf c < sizeOf cs := List.sizeOf_lt_of_mem hc
        have h2 : sizeOf (Node.mk t r d m cs) = 1 + sizeOf t + sizeOf r +
            sizeOf d + sizeOf m + sizeOf cs := by simp
        omega
  intro n
  exact key (sizeOf n) n le_rfl

/-- Zero is a right identity of the modelled `dist_add`. -/
theorem dist_add_zero (d : Dist) : dist_add d .zero = d := by
  cases d <;> rfl

/-- Zero is a left identity of the modelled `dist_add`. -/
theorem zero_dist_add (d : Dist) : dist_add .zero d = d := by
  cases d <;> rfl

/-- `noApplicableCostList` is the conjunction over the list. -/
theorem noApplicableCostList_iff (cfg : Option CostConfig) (cs : List Node) :
    noApplicableCostList cfg cs = true ↔
      ∀ c ∈ cs, noApplicableCost cfg c = true := by
  induction cs with
  | nil => simp [noApplicableCostList]
  | cons c rest ih => simp [noApplicableCostList, Bool.and_eq_true, ih]

/-- `allExcludedList` is the conjunction over the list. -/
theorem allExcludedList_iff (cfg : CostConfig) (cs : List Node) :
    allExcludedList cfg cs = true ↔ ∀ c ∈ cs, allExcluded cfg c = true := by
  induction cs with
  | nil => simp [allExcludedList]
  | cons c rest ih => simp [allExcludedList, Bool.and_eq_true, ih]

/-- If every child cost is the Zero distribution and the accumulator is
absent or Zero, the child loop of `_cost_raw` leaves the accumulator absent
or Zero. -/
theorem cost_fold_absent (cfg : Option CostConfig) :
    ∀ (cs : List Node) (acc : Option Dist) (st : CostStats),
      (∀ c ∈ cs, (cost_raw c cfg).1 = Dist.zero) →
      (acc = none ∨ acc = some Dist.zero) →
      ((cost_fold cs cfg acc st).1 = none ∨
        (cost_fold cs cfg acc st).1 = some Dist.zero) := by
  intro cs
  induction cs with
  | nil =>
    intro acc st _ hacc
    simpa [cost_fold] using hacc
  | cons c rest ih =>
    intro acc st hall hacc
    have hc : (cost_raw c cfg).1 = Dist.zero := hall c (List.mem_cons_self c rest)
    have hrest : ∀ x ∈ rest, (cost_raw x cfg).1 = Dist.zero :=
      fun x hx => hall x (List.mem_cons_of_mem _ hx)
    rcases hacc with h | h <;> subst h
    · simp only [cost_fold]
      exact ih _ _ hrest (Or.inr (by rw [hc]))
    · simp only [cost_fold]
      exact ih _ _ hrest (Or.inr (by rw [hc, dist_add_zero]))

/-- A subtree with no applicable cost reports the Zero distribution: the
accumulator of `_cost_raw` stays absent or Zero, and line 126 turns either
into `ZERO`. -/
theorem cost_of_noApplicable (cfg : Option CostConfig) :
    ∀ n : Node, noApplicableCost cfg n = true → cost n cfg = Dist.zero := by
  refine node_ind
    (fun n => noApplicableCost cfg n = true → cost n cfg = Dist.zero) ?_
  intro t r d m cs ih hno
  rw [noApplicableCost] at hno
  obtain ⟨hown, hlist⟩ := Bool.and_eq_true_iff.mp hno
  have hown2 : ownContribution r d cfg = none := Option.isNone_iff_eq_none.mp hown
  have hall : ∀ c ∈ cs, (cost_raw c cfg).1 = Dist.zero := by
    intro c hc
    exact ih c hc ((noApplicableCostList_iff cfg cs).mp hlist c hc)
  have hfold := cost_fold_absent cfg cs (ownContribution r d cfg)
    (ownStats r cfg) hall (Or.inl hown2)
  rw [cost, cost_raw]
  rcases hfold with h | h <;> rw [h] <;> rfl

/-- An excluded resource contributes no own cost: the multiplier defaults to
or is at most 0, so `_cost_raw` sets `cost_so_far = None`. -/
theorem ownContribution_excluded (cfg : CostConfig) (r : String)
    (d : Option Dist) (h : excludedBy cfg r = true) :
    ownContribution r d (some cfg) = none := by
  rw [ownContribution]
  rw [excludedBy] at h
  cases hq : assocLookup r cfg.resource_costs with
  | none => simp [hq]
  | some m =>
    rw [hq] at h
    simp only [decide_eq_true_eq] at h
    simp [hq, not_lt.mpr h]

/-- A tree all of whose resources are excluded has no applicable cost. -/
theorem allExcluded_noApplicable (cfg : CostConfig) :
    ∀ n : Node, allExcluded cfg n = true →
      noApplicableCost (some cfg) n = true := by
  refine node_ind
    (fun n => allExcluded cfg n = true → noApplicableCost (some cfg) n = true) ?_
  intro t r d m cs ih hex
  rw [allExcluded] at hex
  obtain ⟨hr, hlist⟩ := Bool.and_eq_true_iff.mp hex
  rw [noApplicableCost]
  refine Bool.and_eq_true_iff.mpr ⟨?_, ?_⟩
  · rw [ownContribution_excluded cfg r d hr]
    rfl
  · exact (noApplicableCostList_iff _ _).mpr
      (fun c hc => ih c hc ((allExcludedList_iff cfg cs).mp hlist c hc))

/-- When the bracket loop exits, the cdf at the returned endpoint exceeds
the target probability (the loop guard has just failed). -/
theorem bracketEnd_some (f : ℚ → ℚ) (p : ℚ) :
    ∀ (fuel : ℕ) (e e2 : ℚ), bracketEnd f p fuel e = some e2 → p < f e2 := by
  intro fuel
  induction fuel with
  | zero => intro e e2 h; simp [bracketEnd] at h
  | succ k ih =>
    intro e e2 h
    rw [bracketEnd] at h
    by_cases hf : f e ≤ p
    · rw [if_pos hf] at h
      exact ih _ _ h
    · rw [if_neg hf] at h
      cases h
      exact not_le.mp hf

/-- The bracket loop exits within `fuel` iterations as soon as some iterate
of the doubling step satisfies the exit condition. -/
theorem bracketEnd_isSome (f : ℚ → ℚ) (p : ℚ) :
    ∀ (fuel : ℕ) (e : ℚ), (∃ k < fuel, p < f (bracketIter k e)) →
      (bracketEnd f p fuel e).isSome := by
  intro fuel
  induction fuel with
  | zero =>
    rintro e ⟨k, hk, _⟩
    omega
  | succ m ih =>
    rintro e ⟨k, hk, hgt⟩
    rw [bracketEnd]
    by_cases hf : f e ≤ p
    · have hk0 : k ≠ 0 := by
        rintro rfl
        rw [bracketIter] at hgt
        exact absurd hgt (not_lt.mpr hf)
      obtain ⟨j, rfl⟩ := Nat.exists_eq_succ_of_ne_zero hk0
      rw [if_pos hf]
      refine ih (bracketStep e) ⟨j, by omega, ?_⟩
      rw [bracketIter] at hgt
      exact hgt
    · rw [if_neg hf]
      rfl

/-- The doubling step on a positive endpoint multiplies it by two each
iteration. -/
theorem bracketIter_pos (k : ℕ) : ∀ e : ℚ, 0 < e →
    bracketIter k e = 2 ^ k * e := by
  induction k with
  | zero =>
    intro e he
    rw [bracketIter]
    ring
  | succ j ih =>
    intro e he
    rw [bracketIter]
    have hne : e ≠ 0 := ne_of_gt he
    have hstep : bracketStep e = 2 * e := by rw [bracketStep, if_neg hne]
    rw [hstep, ih (2 * e) (by positivity)]
    ring

/-- Starting from the Python initial endpoint 0, the iterates are
1, 2, 4, ...: after k+1 steps the endpoint is 2^k. -/
theorem bracketIter_zero_start (k : ℕ) : bracketIter (k + 1) 0 = 2 ^ k := by
  rw [bracketIter]
  have hstep : bracketStep 0 = 1 := by rw [bracketStep, if_pos rfl]
  rw [hstep, bracketIter_pos k 1 one_pos]
  ring

/-- A cdf approaching 1 eventually exceeds any target probability p < 1. -/
theorem eventually_gt (f : ℚ → ℚ) (hlim : TendsToOne f) (p : ℚ) (hp : p < 1) :
    ∃ N : ℕ, ∀ x : ℚ, (N : ℚ) ≤ x → p < f x := by
  obtain ⟨N, hN⟩ := hlim (1 - p) (by linarith)
  exact ⟨N, fun x hx => by have := hN x hx; linarith⟩

/-- Termination of the bracket-doubling loop: for a cdf approaching 1 and a
target p < 1 the loop exits within some finite fuel. -/
theorem bracket_terminates (f : ℚ → ℚ) (p : ℚ) (hlim : TendsToOne f)
    (hp : p < 1) : ∃ fuel e, bracketEnd f p fuel 0 = some e := by
  obtain ⟨N, hN⟩ := eventually_gt f hlim p hp
  have h2 : (N : ℚ) ≤ 2 ^ N := by
    have hN2 := Nat.lt_two_pow N
    have : (N : ℚ) < ((2 ^ N : ℕ) : ℚ) := by exact_mod_cast hN2
    push_cast at this
    linarith
  have hgt : p < f (bracketIter (N + 1) 0) := by
    rw [bracketIter_zero_start]
    exact hN _ h2
  have hs := bracketEnd_isSome f p (N + 2) 0 ⟨N + 1, by omega, hgt⟩
  obtain ⟨e, he⟩ := Option.isSome_iff_exists.mp hs
  exact ⟨N + 2, e, he⟩

/-- The modelled scipy bisection returns normally whenever the sign-change
requirement holds at the interval ends. -/
theorem bisect_ok_of_signs (f : ℚ → ℚ) (b : ℚ) (h0 : f 0 ≤ 0) (hb : 0 < f b) :
    ∃ r, bisect f 0 b = Except.ok r := by
  rw [bisect]
  have hprod : ¬ 0 < f 0 * f b := by nlinarith
  rw [if_neg hprod]
  by_cases h00 : f 0 = 0
  · rw [if_pos h00]
    exact ⟨0, rfl⟩
  · rw [if_neg h00]
    rw [if_neg (ne_of_gt hb)]
    exact ⟨_, rfl⟩

/-- The modelled scipy bisection fails on an interval whose two ends have
the same positive value, in particular on the degenerate interval [0, 0]
when f(0) > 0. -/
theorem bisect_error_of_pos (f : ℚ → ℚ) (h : 0 < f 0) :
    bisect f 0 0 = Except.error "f a and f b must have different signs" := by
  rw [bisect]
  rw [if_pos (by nlinarith)]

/-! ### Claim theorems -/

/-- C1, counterexample: in the 2-node exclusion example the child subtree
has no applicable cost, yet its recursive `_cost_raw` call reports the Zero
distribution (not an absent value) and the parent performs one `dist_add`
call with it, where the claim predicts that the child is skipped with no
add call and that Zero only appears as the terminal value reported to the
original caller. -/
theorem c1_counterexample :
    noApplicableCost (some dollarsOnly) hoursChild = true ∧
      cost hoursChild (some dollarsOnly) = Dist.zero ∧
      (costStats dollarsRoot (some dollarsOnly)).add_calls = 1 := by
  refine ⟨by decide, by decide, by decide⟩

/-- C1, amended: a child subtree with no applicable cost returns the Zero
distribution at its own level of the recursion — the Zero substitution of
line 126 happens at every level, not only at the node reporting to the
original caller — and the parent combine step add-combines that Zero with a
present accumulator (one `dist_add` call per child), leaving the aggregate
unchanged because Zero is the additive identity of `dist_add`.  Child totals
are only taken without an add call when the accumulator itself is absent. -/
theorem c1_amended (t r : String) (d : Dist)
    (ms : List (Option CostConfig × Dist)) (c : Node) (cfg : CostConfig)
    (hpos : 0 < (assocLookup r cfg.resource_costs).getD 0)
    (hc : noApplicableCost (some cfg) c = true) :
    cost c (some cfg) = Dist.zero ∧
      cost (Node.mk t r (some d) ms [c]) (some cfg) =
        dist_scale d ((assocLookup r cfg.resource_costs).getD 0) ∧
      (costStats (Node.mk t r (some d) ms [c]) (some cfg)).add_calls =
        (costStats c (some cfg)).add_calls + 1 := by
  have hz := cost_of_noApplicable (some cfg) c hc
  have hz2 : (cost_raw c (some cfg)).1 = Dist.zero := hz
  have hown : ownContribution r (some d) (some cfg) =
      some (dist_scale d ((assocLookup r cfg.resource_costs).getD 0)) := by
    rw [ownContribution]
    simp [hpos]
  have hstat : ownStats r (some cfg) = ⟨1, 0⟩ := by
    rw [ownStats]
    simp [hpos]
  refine ⟨hz, ?_, ?_⟩
  · rw [cost, cost_raw, hown, cost_fold, cost_fold]
    simp [hz2, dist_add_zero]
  · rw [costStats, cost_raw, hown, hstat, cost_fold, cost_fold]
    simp [statAdd, costStats]

/-- C1, witness for the amended theorem at the 2-node exclusion example. -/
theorem c1_amended_witness :
    (0 < (assocLookup "dollars" dollarsOnly.resource_costs).getD 0 ∧
      noApplicableCost (some dollarsOnly) hoursChild = true) ∧
    cost hoursChild (some dollarsOnly) = Dist.zero ∧
      cost (Node.mk "root" "dollars" (some (Dist.point [(5, 1)])) []
          [hoursChild]) (some dollarsOnly) =
        dist_scale (Dist.point [(5, 1)])
          ((assocLookup "dollars" dollarsOnly.resource_costs).getD 0) ∧
      (costStats (Node.mk "root" "dollars" (some (Dist.point [(5, 1)])) []
          [hoursChild]) (some dollarsOnly)).add_calls =
        (costStats hoursChild (some dollarsOnly)).add_calls + 1 :=
  ⟨⟨by decide, by decide⟩,
    c1_amended "root" "dollars" (Dist.point [(5, 1)]) [] hoursChild
      dollarsOnly (by decide) (by decide)⟩

/-- C2, counterexample: under the config mapping only "dollars" to 1, a node
that owns the distribution Point({5: 1.0}) but has no resource label is
excluded entirely — its aggregate is the Zero distribution, not its own
distribution unscaled. -/
theorem c2_counterexample :
    cost unlabeledNode (some dollarsOnly) = Dist.zero ∧
      Dist.zero ≠ Dist.point [(5, 1)] := by
  refine ⟨by decide, by decide⟩

/-- C2, amended: under a present config, the multiplier lookup of
`_cost_raw` applies to every node, whether or not it carries a resource
label; a label-less node is looked up under its default empty-string
resource, so it contributes nothing when the config leaves `""` unlisted or
non-positive, and contributes its distribution scaled by the multiplier
when the config maps `""` to a positive value. -/
theorem c2_amended (t : String) (d : Dist)
    (ms : List (Option CostConfig × Dist)) (cfg : CostConfig) :
    ((assocLookup "" cfg.resource_costs).getD 0 ≤ 0 →
      cost (Node.mk t "" (some d) ms []) (some cfg) = Dist.zero) ∧
    (0 < (assocLookup "" cfg.resource_costs).getD 0 →
      cost (Node.mk t "" (some d) ms []) (some cfg) =
        dist_scale d ((assocLookup "" cfg.resource_costs).getD 0)) := by
  constructor
  · intro h
    have hown : ownContribution "" (some d) (some cfg) = none := by
      rw [ownContribution]
      simp [not_lt.mpr h]
    rw [cost, cost_raw, hown, cost_fold]
    rfl
  · intro h
    have hown : ownContribution "" (some d) (some cfg) =
        some (dist_scale d ((assocLookup "" cfg.resource_costs).getD 0)) := by
      rw [ownContribution]
      simp [h]
    rw [cost, cost_raw, hown, cost_fold]
    rfl

/-- C2, witness for the amended theorem: the config listing only "dollars"
leaves the empty resource at multiplier 0, so the label-less node counts
for nothing. -/
theorem c2_amended_witness :
    (assocLookup "" dollarsOnly.resource_costs).getD 0 ≤ 0 ∧
      cost (Node.mk "n" "" (some (Dist.point [(5, 1)])) [] [])
        (some dollarsOnly) = Dist.zero :=
  ⟨by decide, (c2_amended "n" (Dist.point [(5, 1)]) [] dollarsOnly).1 (by decide)⟩

/-- C3: in the 2-node tree (root tagged "dollars" with cost Point({5:1}),
child tagged "hours" with cost Point({1:1})) under the config mapping only
"dollars" to 1, the median of the aggregate cost is exactly 5: the
hours-tagged child contributes nothing. -/
theorem c3_theorem :
    quantile (cost dollarsRoot (some dollarsOnly)) (1/2) = some 5 := by
  have hchild : cost_raw hoursChild (some dollarsOnly) = (Dist.zero, ⟨0, 0⟩) := by
    decide
  have hown : ownContribution "dollars" (some (Dist.point [(5, 1)]))
      (some dollarsOnly) = some (Dist.point [(5, 1)]) := by
    rw [ownContribution]
    norm_num [assocLookup, dollarsOnly, dist_scale]
  rw [cost, dollarsRoot, cost_raw, hown]
  simp only [cost_fold, hchild]
  rw [dist_add_zero]
  norm_num [quantile, pointQuantile, sortPairs, insertPair, pointQuantileGo]

/-- C4: when every resource occurring in a tree is excluded by the config
(unlisted, or mapped to a multiplier ≤ 0), the aggregate cost of the tree is
the Zero distribution, whose quantile is 0 at every probability. -/
theorem c4_theorem (n : Node) (cfg : CostConfig)
    (h : allExcluded cfg n = true) :
    cost n (some cfg) = Dist.zero ∧
      ∀ p : ℚ, quantile (cost n (some cfg)) p = some 0 := by
  have hz := cost_of_noApplicable (some cfg) n (allExcluded_noApplicable cfg n h)
  refine ⟨hz, fun p => ?_⟩
  rw [hz]
  rfl

/-- C4, witness: a single "hours" node under the dollars-only config. -/
theorem c4_witness :
    allExcluded dollarsOnly hoursChild = true ∧
      cost hoursChild (some dollarsOnly) = Dist.zero ∧
      quantile (cost hoursChild (some dollarsOnly)) (1/2) = some 0 := by
  have h : allExcluded dollarsOnly hoursChild = true := by decide
  exact ⟨h, (c4_theorem hoursChild dollarsOnly h).1,
    (c4_theorem hoursChild dollarsOnly h).2 (1/2)⟩

/-- C5, code evaluation at the failing input: the Zero distribution's cdf
answers 1 (not 0) at the negative input -1, contradicting the invariant that
every variant's cdf vanishes below zero. -/
theorem c5_code_eval : zero_cdf (-1) = 1 := rfl

/-- C6, code evaluation at the failing inputs: each abstract base-class
method returns the NotImplementedError instance as an ordinary value — a
normal return, not a raised exception. -/
theorem c6_code_eval :
    distribution_cdf 0 = .normalReturn (.excInstance "NotImplementedError"
      "Distribution classes must define cdf.") ∧
    distribution_pdf 0 = .normalReturn (.excInstance "NotImplementedError"
      "Distribution classes must define pdf.") ∧
    distribution_point_on_curve = .normalReturn (.excInstance
      "NotImplementedError" "Distribution classes must define point_on_curve") := by
  refine ⟨rfl, rfl, rfl⟩

/-- C7, counterexample: the estimate string `"(1-2-3)"` has two `-`
separators in its body, yet `make_distribution` does not fail: it silently
uses the first two segments and returns the fitted curve for (1, 2). -/
theorem c7_counterexample :
    bodySplit "(1-2-3)" = ["1", "2", "3"] ∧
      make_distribution "(1-2-3)" =
        Except.ok (Dist.fitted (1/10) 1 (3/4) 2) := by
  have hsplit : bodySplit "(1-2-3)" = ["1", "2", "3"] := by decide
  have h0 : pyFloat "1" = some 1 := by decide
  have h1 : pyFloat "2" = some 2 := by decide
  refine ⟨hsplit, ?_⟩
  simp only [make_distribution, hsplit, h0, h1, fit_curve, logLogisticFit]
  split_ifs with h
  · exact absurd h (by norm_num)
  · rfl

/-- C7, amended: `make_distribution` fails with a parse error when a segment
it actually reads is non-numeric, but a body with more than one `-`
separator does not fail by itself: the first two segments are used as the
10%/75% values and every further segment is ignored. -/
theorem c7_amended (data v0 v1 : String) (rest : List String)
    (hsplit : bodySplit data = v0 :: v1 :: rest) :
    (∀ a b : ℚ, pyFloat v0 = some a → pyFloat v1 = some b →
      make_distribution data = fit_curve a b) ∧
    (pyFloat v0 = none →
      make_distribution data =
        Except.error "could not convert string to float") := by
  constructor
  · intro a b h0 h1
    simp only [make_distribution, hsplit, h0, h1]
  · intro h0
    cases hv1 : pyFloat v1 <;>
      simp only [make_distribution, hsplit, h0, hv1]

/-- C7, witness for the amended theorem at the body `"1-2-3"`. -/
theorem c7_amended_witness :
    bodySplit "(1-2-3)" = "1" :: "2" :: ["3"] ∧
      make_distribution "(1-2-3)" = fit_curve 1 2 :=
  ⟨by decide, (c7_amended "(1-2-3)" "1" "2" ["3"] (by decide)).1 1 2
    (by decide) (by decide)⟩

/-- The step cdf is monotonically non-decreasing. -/
theorem stepCdf_mono : MonotoneCdf stepCdf := by
  intro x y hxy
  by_cases h2 : y < 1
  · have h1 : x < 1 := lt_of_le_of_lt hxy h2
    rw [stepCdf, stepCdf, if_pos h1, if_pos h2]
  · rw [stepCdf, stepCdf, if_neg h2]
    by_cases h1 : x < 1
    · rw [if_pos h1]
      norm_num
    · rw [if_neg h1]

/-- The step cdf approaches 1. -/
theorem stepCdf_tendsToOne : TendsToOne stepCdf := by
  intro ε hε
  refine ⟨1, fun x hx => ?_⟩
  have h1 : (1 : ℚ) ≤ x := by exact_mod_cast hx
  rw [stepCdf, if_neg (not_lt.mpr h1)]
  linarith

/-- C8 (amended): for a monotone cdf approaching 1 and a target p < 1, and
under the additional precondition cdf(0) ≤ p forced by the counterexample,
the default quantile implementation terminates: the bracket loop exits after
finitely many doublings at an endpoint whose cdf exceeds p, and the
bisection over [0, endpoint] then returns normally. -/
theorem c8_theorem (f : ℚ → ℚ) (p : ℚ) (_hmono : MonotoneCdf f)
    (hlim : TendsToOne f) (hp : p < 1) (h0 : f 0 ≤ p) :
    ∃ fuel e, bracketEnd f p fuel 0 = some e ∧ p < f e ∧
      ∃ r, quantile_default f p fuel = some (Except.ok r) := by
  obtain ⟨fuel, e, he⟩ := bracket_terminates f p hlim hp
  have hgt := bracketEnd_some f p fuel 0 e he
  refine ⟨fuel, e, he, hgt, ?_⟩
  obtain ⟨r, hr⟩ := bisect_ok_of_signs (fun x => f x - p) e
    (by simpa using h0) (by simpa using hgt)
  refine ⟨r, ?_⟩
  rw [quantile_default, he, Option.map_some', hr]

/-- C8, witness for the amended theorem at the step cdf and p = 1/2. -/
theorem c8_witness :
    ∃ fuel e, bracketEnd stepCdf (1/2) fuel 0 = some e ∧ 1/2 < stepCdf e ∧
      ∃ r, quantile_default stepCdf (1/2) fuel = some (Except.ok r) :=
  c8_theorem stepCdf (1/2) stepCdf_mono stepCdf_tendsToOne (by norm_num)
    (by norm_num [stepCdf])

/-- C8, counterexample: the claim as stated omits the precondition
cdf(0) ≤ p, and fails for the cdf of the Zero distribution (constant 1,
monotone, approaching 1) at p = 1/2: the loop exits immediately at endpoint
0, and the bisection is handed the degenerate interval [0, 0] on which the
sign-change requirement fails, so it errors instead of returning. -/
theorem c8_counterexample :
    ¬ (∀ f : ℚ → ℚ, ∀ p : ℚ, MonotoneCdf f → TendsToOne f → p < 1 →
      ∃ fuel e, bracketEnd f p fuel 0 = some e ∧ p < f e ∧
        ∃ r, quantile_default f p fuel = some (Except.ok r)) := by
  intro hclaim
  have hmono : MonotoneCdf zero_cdf := fun x y _ => le_refl 1
  have hlim : TendsToOne zero_cdf := fun ε hε => ⟨0, fun x _ => by
    norm_num [zero_cdf]
    linarith⟩
  obtain ⟨fuel, e, he, _, r, hr⟩ :=
    hclaim zero_cdf (1/2) hmono hlim (by norm_num)
  have hcond : ¬ zero_cdf 0 ≤ 1/2 := by norm_num [zero_cdf]
  have he0 : e = 0 := by
    cases fuel with
    | zero => simp [bracketEnd] at he
    | succ m =>
      rw [bracketEnd, if_neg hcond] at he
      cases he
      rfl
  rw [quantile_default, he, Option.map_some', he0] at hr
  have herr := bisect_error_of_pos (fun x => zero_cdf x - 1/2)
    (by norm_num [zero_cdf])
  rw [herr] at hr
  cases hr

/-- C9: calling `final_cost(config)` a second time on the tree returned by
the first call yields exactly the same distribution and the same tree, with
zero `dist_scale`/`dist_add` calls: the result is served from the root memo
entry stored by the first call. -/
theorem c9_theorem (n : Node) (cfg : Option CostConfig) :
    (final_cost (final_cost n cfg).2.1 cfg).1 = (final_cost n cfg).1 ∧
      (final_cost (final_cost n cfg).2.1 cfg).2.1 = (final_cost n cfg).2.1 ∧
      (final_cost (final_cost n cfg).2.1 cfg).2.2 = ⟨0, 0⟩ := by
  cases n with
  | mk t r d memo cs =>
    cases hm : assocLookup cfg memo with
    | some m => simp [final_cost, cost_raw_final, hm]
    | none => simp [final_cost, cost_raw_final, hm, assocLookup]

/-- C10: the default quantile is safe exactly under the precondition
cdf(0) ≤ p.  Under it, any endpoint the bracket loop returns satisfies
cdf(end) > p, the sign-change requirement of the bisection over [0, end]
holds, and the bisection's failure branch is unreachable.  Without it
(cdf(0) > p), the loop exits immediately with end = 0, and the bisection is
invoked on the degenerate interval [0, 0], where it fails. -/
theorem c10_theorem (f : ℚ → ℚ) (p : ℚ) :
    (f 0 ≤ p → ∀ fuel e, bracketEnd f p fuel 0 = some e →
      (f 0 - p) * (f e - p) ≤ 0 ∧
        ∃ r, bisect (fun x => f x - p) 0 e = Except.ok r) ∧
    (p < f 0 → ∀ fuel, bracketEnd f p (fuel + 1) 0 = some 0 ∧
      bisect (fun x => f x - p) 0 0 =
        Except.error "f a and f b must have different signs") := by
  constructor
  · intro h0 fuel e he
    have hgt := bracketEnd_some f p fuel 0 e he
    constructor
    · nlinarith
    · exact bisect_ok_of_signs (fun x => f x - p) e (by simpa using h0)
        (by simpa using hgt)
  · intro h0 fuel
    constructor
    · rw [bracketEnd, if_neg (not_le.mpr h0)]
    · exact bisect_error_of_pos (fun x => f x - p) (by simpa using h0)

/-- C10, witness: the safe side at the step cdf (whose cdf at 0 is 0 ≤ 1/2,
with the loop exiting at endpoint 1), and the unsafe side at the Zero
distribution's cdf (constant 1 > 1/2). -/
theorem c10_witness :
    ((stepCdf 0 - 1/2) * (stepCdf 1 - 1/2) ≤ 0 ∧
      ∃ r, bisect (fun x => stepCdf x - 1/2) 0 1 = Except.ok r) ∧
    bisect (fun x => zero_cdf x - 1/2) 0 0 =
      Except.error "f a and f b must have different signs" := by
  have hstep : bracketStep 0 = 1 := by rw [bracketStep, if_pos rfl]
  have hc0 : stepCdf 0 ≤ 1/2 := by norm_num [stepCdf]
  have hc1 : ¬ stepCdf 1 ≤ 1/2 := by norm_num [stepCdf]
  have hbracket : bracketEnd stepCdf (1/2) 2 0 = some 1 := by
    rw [show (2 : ℕ) = 1 + 1 from rfl, bracketEnd, if_pos hc0, hstep,
      bracketEnd, if_neg hc1]
  exact ⟨(c10_theorem stepCdf (1/2)).1 (by norm_num [stepCdf]) 2 1 hbracket,
    ((c10_theorem zero_cdf (1/2)).2 (by norm_num [zero_cdf]) 0).2⟩

end Libpmp
